import Mathlib

/-!
Verification of the usage-tracking ledger in
`backend/open_webui/utils/usage_tracking.py` and its router
`backend/open_webui/routers/usage.py`.

Embedding conventions:
* Python `dict`s are association lists `List (String × α)` preserving
  insertion order (Python 3.7+ dicts iterate in insertion order; updating
  an existing key keeps its position, inserting a new key appends).
* Python `int` is `Int` (unbounded, may be negative).
* Python `float` costs are modelled as exact rationals `ℚ`; the cost
  formulas `(tokens / 1_000_000) * price` are exact divisions.
* ISO-format timestamp strings (`datetime.now().isoformat()`) are modelled
  by their instants as `Int`; `datetime.fromisoformat` is then the
  identity, and comparison of parsed timestamps is `Int` order.
-/

namespace UsageTracking

/-- Ordered lookup in an association list: the value at the first pair
whose key equals `k` (Python `d[k]` / `d.get(k)`; dict keys are unique). -/
def alookup {α : Type} : List (String × α) → String → Option α
  | [], _ => none
  | p :: l, k => if p.1 = k then some p.2 else alookup l k

/-- Python dict write `d[k] = v`: replace in place when the key exists
(keeping its position), otherwise append at the end. -/
def upsert {α : Type} : List (String × α) → String → α → List (String × α)
  | [], k, v => [(k, v)]
  | p :: l, k, v => if p.1 = k then (k, v) :: l else p :: upsert l k v

/-- Python substring containment `needle in hay` on strings. -/
def strContains (hay needle : String) : Bool :=
  (List.range (hay.data.length + 1)).any
    (fun i => needle.data.isPrefixOf (hay.data.drop i))

/-- Python `str.lower()` (the model identifiers involved are ASCII). -/
def pyLower (s : String) : String :=
  ⟨s.data.map Char.toLower⟩

/-- `MODEL_PRICING` from usage_tracking.py lines 20-28: an insertion-ordered
dict from model-name pattern to (input price, output price) per million
tokens. -/
def MODEL_PRICING : List (String × ℚ × ℚ) :=
  [("claude-sonnet-4-5", (3, 15)),
   ("claude-sonnet-3-5", (3, 15)),
   ("claude-opus-4", (15, 75)),
   ("gpt-4", (30, 60)),
   ("gpt-4-turbo", (10, 30)),
   ("gpt-3.5-turbo", (1/2, 3/2))]

/-- The cost formula applied to one pricing entry:
`(input_tokens / 1_000_000) * input + (output_tokens / 1_000_000) * output`. -/
def applyPricing (pricing : ℚ × ℚ) (input_tokens output_tokens : Int) : ℚ :=
  ((input_tokens : ℚ) / 1000000) * pricing.1
    + ((output_tokens : ℚ) / 1000000) * pricing.2

/-- `calculate_cost` from usage_tracking.py lines 50-63: lowercase the model
name, scan `MODEL_PRICING` in declaration order and return the cost from the
first pattern contained in the model name; default to input $3 / output $15
per million tokens when no pattern matches (logged as unknown model). -/
def calculate_cost (model : String) (input_tokens output_tokens : Int) : ℚ :=
  let base_model := pyLower model
  match MODEL_PRICING.find? (fun p => strContains base_model p.1) with
  | some p => applyPricing p.2 input_tokens output_tokens
  | none => applyPricing (3, 15) input_tokens output_tokens

example : calculate_cost "gpt-4" 1000 500 = 6/100 := by
  have h : calculate_cost "gpt-4" 1000 500 = applyPricing (30, 60) 1000 500 := rfl
  rw [h]; norm_num [applyPricing]

example : calculate_cost "something-else" 10 10 = applyPricing (3, 15) 10 10 := rfl

example : calculate_cost "GPT-4-Turbo" 7 5 = applyPricing (30, 60) 7 5 := rfl

/-- A per-date daily bucket (usage_tracking.py lines 108-113). -/
structure DailyBucket where
  tokens_input : Int
  tokens_output : Int
  tokens_total : Int
  cost : ℚ
  deriving DecidableEq, Repr

/-- A per-month monthly bucket (usage_tracking.py lines 122-125). -/
structure MonthlyBucket where
  tokens_total : Int
  cost : ℚ
  deriving DecidableEq, Repr

/-- A per-session bucket (usage_tracking.py lines 133-139).  `last_updated`
is absent on the creation literal and first written at line 145, hence an
`Option`. -/
structure SessionBucket where
  tokens_input : Int
  tokens_output : Int
  tokens_total : Int
  cost : ℚ
  started_at : Int
  last_updated : Option Int
  deriving DecidableEq, Repr

/-- One history record (usage_tracking.py lines 148-155). -/
structure HistoryEntry where
  model : String
  timestamp : Int
  input_tokens : Int
  output_tokens : Int
  cost : ℚ
  session_id : Option String
  deriving DecidableEq, Repr

/-- A user's ledger (usage_tracking.py lines 97-102). -/
structure UserLedger where
  daily : List (String × DailyBucket)
  monthly : List (String × MonthlyBucket)
  sessions : List (String × SessionBucket)
  history : List HistoryEntry
  deriving DecidableEq, Repr

/-- The persisted store: user email → ledger. -/
abbrev UsageStore : Type := List (String × UserLedger)

/-- The ledger created for a new user (usage_tracking.py lines 97-102). -/
def emptyLedger : UserLedger := ⟨[], [], [], []⟩

/-- The zero daily bucket created on a date's first event (lines 108-113). -/
def zeroDaily : DailyBucket := ⟨0, 0, 0, 0⟩

/-- The zero monthly bucket created on a month's first event (lines 122-125). -/
def zeroMonthly : MonthlyBucket := ⟨0, 0⟩

/-- Python truthiness of the optional `session_id` (line 131 `if session_id:`
is false for `None` and for the empty string). -/
def truthy : Option String → Bool
  | none => false
  | some s => !(s = "")

/-- The in-place mutation of one user's ledger performed by `track_usage`
(usage_tracking.py lines 106-159), applied to the ledger obtained at lines
96-104 (the user's existing one, or a fresh empty one). -/
def recordLedger (model : String) (input_tokens output_tokens : Int)
    (session_id : Option String) (timestamp : Int) (today current_month : String)
    (user_data : UserLedger) : UserLedger :=
  let cost := calculate_cost model input_tokens output_tokens
  -- lines 106-118: daily stats
  let db0 := (alookup user_data.daily today).getD zeroDaily
  let db : DailyBucket :=
    ⟨db0.tokens_input + input_tokens,
     db0.tokens_output + output_tokens,
     db0.tokens_total + (input_tokens + output_tokens),
     db0.cost + cost⟩
  let daily := upsert user_data.daily today db
  -- lines 120-128: monthly stats
  let mb0 := (alookup user_data.monthly current_month).getD zeroMonthly
  let mb : MonthlyBucket :=
    ⟨mb0.tokens_total + (input_tokens + output_tokens), mb0.cost + cost⟩
  let monthly := upsert user_data.monthly current_month mb
  -- lines 130-145: session stats, only when session_id is truthy
  let sessions :=
    match session_id with
    | none => user_data.sessions
    | some sid =>
      if sid = "" then user_data.sessions
      else
        let sb0 := (alookup user_data.sessions sid).getD
          ⟨0, 0, 0, 0, timestamp, none⟩
        let sb : SessionBucket :=
          ⟨sb0.tokens_input + input_tokens,
           sb0.tokens_output + output_tokens,
           sb0.tokens_total + (input_tokens + output_tokens),
           sb0.cost + cost,
           sb0.started_at,
           some timestamp⟩
        upsert user_data.sessions sid sb
  -- lines 147-159: append to history, trim to the last 1000
  let entry : HistoryEntry :=
    ⟨model, timestamp, input_tokens, output_tokens, cost, session_id⟩
  let history0 := user_data.history ++ [entry]
  let history :=
    if history0.length > 1000 then history0.drop (history0.length - 1000)
    else history0
  ⟨daily, monthly, sessions, history⟩

/-- `track_usage` from usage_tracking.py lines 66-171, as the pure
store-to-store transformation performed inside the locked critical section:
look up the user's ledger, creating an empty one if absent (lines 96-104),
mutate it in place via `recordLedger` (lines 106-159), and write the store
back (lines 161-166; the in-place dict mutation keeps the user's key
position).  The wall-clock reads (lines 85-87) are passed in as `timestamp`
(the instant of `datetime.now().isoformat()`), `today` (`date.today()` ISO
string) and `current_month` (`%Y-%m` string). -/
def track_usage (user_email model : String) (input_tokens output_tokens : Int)
    (session_id : Option String) (timestamp : Int) (today current_month : String)
    (data : UsageStore) : UsageStore :=
  upsert data user_email
    (recordLedger model input_tokens output_tokens session_id timestamp today
      current_month ((alookup data user_email).getD emptyLedger))

/-- The retention key of a session (usage_tracking.py line 217):
`session_data.get("last_updated", session_data.get("started_at"))`, parsed
with `datetime.fromisoformat` (the identity in this timestamp model). -/
def sessionKey (sb : SessionBucket) : Int :=
  sb.last_updated.getD sb.started_at

/-- `cleanup_old_sessions` from usage_tracking.py lines 203-234, as the pure
store-to-store transformation performed inside the locked critical section.
`cutoff_date` stands for `datetime.now() - timedelta(days=keep_days)`
(line 207).  A session is deleted exactly when its retention key is
strictly before the cutoff (line 220); deletion preserves the order of the
surviving sessions.  When the user (or, in this typed store, its sessions
dict) is absent nothing is written back (line 212 guard). -/
def cleanup_old_sessions (user_email : String) (cutoff_date : Int)
    (data : UsageStore) : UsageStore :=
  match alookup data user_email with
  | none => data
  | some user_data =>
    upsert data user_email
      { user_data with
        sessions := user_data.sessions.filter
          (fun p => !decide (sessionKey p.2 < cutoff_date)) }

/-- A JSON value, as returned by Python's `json.load`. -/
inductive PyJson where
  | null
  | bool (b : Bool)
  | num (q : ℚ)
  | str (s : String)
  | arr (items : List PyJson)
  | obj (fields : List (String × PyJson))

/-- What `json.load` yields for the store file's content: the file may be
absent, may fail to parse (an empty file or invalid JSON raises
`json.JSONDecodeError`), or parses to some JSON value. -/
inductive FileContent where
  | absent
  | unparseable
  | parsed (j : PyJson)

/-- The empty-valued ledger literal returned by `get_user_usage`
(usage_tracking.py lines 178-183, 187-192, 195-200). -/
def emptyLedgerJson : PyJson :=
  .obj [("daily", .obj []), ("monthly", .obj []), ("sessions", .obj []),
        ("history", .arr [])]

/-- `get_user_usage` from usage_tracking.py lines 174-200.  A missing file
returns the empty ledger (lines 177-183); a file whose content fails
`json.load` raises `json.JSONDecodeError`, which escapes the `with` block
(releasing the lock) and is caught by the catch-all handler at line 193,
returning the empty ledger; calling `.get` on a parsed non-dict value
raises `AttributeError`, likewise caught at line 193; on a parsed dict the
result is `data.get(user_email, empty-ledger)`.  The catch-all handler
makes the Python function total: it never raises. -/
def get_user_usage (file : FileContent) (user_email : String) : PyJson :=
  match file with
  | .absent => emptyLedgerJson
  | .unparseable => emptyLedgerJson
  | .parsed j =>
    match j with
    | .obj fields => ((alookup fields user_email).getD emptyLedgerJson)
    | _ => emptyLedgerJson

/-- The names bound at module level in
`backend/open_webui/routers/usage.py` when `reset_daily_usage` runs: its
imports (lines 1-10, 17) and top-level definitions.  Neither
`safe_read_json` nor `DAILY_COST_FILE` is among them, and neither is a
Python builtin. -/
def usageRouterGlobals : List String :=
  ["os", "json", "logging", "datetime", "date", "Optional", "Dict", "Any",
   "Path", "APIRouter", "Depends", "HTTPException", "status",
   "get_verified_user", "BaseModel", "log", "router", "get_user_usage",
   "track_usage", "DATA_DIR", "DailyUsageStats", "MonthlyUsageStats",
   "SessionUsageStats", "UsageStatsResponse", "get_daily_stats",
   "get_monthly_stats", "get_session_stats", "get_usage_stats",
   "get_daily_history", "get_monthly_history", "TrackUsageRequest",
   "track_usage_endpoint", "reset_daily_usage"]

/-- The JSON body of a successful `reset_daily_usage` response
(usage.py lines 345-357). -/
structure ResetResponse where
  success : Bool
  message : String
  user_id : String
  date : String
  deriving DecidableEq, Repr

/-- `reset_daily_usage` from usage.py lines 319-364.  After computing
`reset_date` (line 332), line 334 evaluates the free names
`safe_read_json` and `DAILY_COST_FILE`; name resolution consults the
module's global namespace (then the builtins).  When either name is
unbound this raises `NameError` before any file is read or written; the
`except Exception` handler at lines 359-364 converts it into an HTTP 500
`HTTPException` (modelled as `Except.error 500`).  The remainder of the
body (delete the date's entry and report success, or report failure) is
modelled on the branch where both names resolve. -/
def reset_daily_usage (user_id : String) (target_date : Option String)
    (today : String) (daily_costs : List (String × List String)) :
    Except Nat ResetResponse :=
  let reset_date := target_date.getD today
  if ("safe_read_json" ∈ usageRouterGlobals)
      ∧ ("DAILY_COST_FILE" ∈ usageRouterGlobals) then
    -- unreachable in the source as written: the names are unbound
    match alookup daily_costs user_id with
    | some dates =>
      if reset_date ∈ dates then
        .ok ⟨true, "Daily usage reset for " ++ reset_date, user_id, reset_date⟩
      else
        .ok ⟨false, "No data found for the specified date", user_id, reset_date⟩
    | none =>
      .ok ⟨false, "No data found for the specified date", user_id, reset_date⟩
  else
    .error 500

/-! ### Association-list lemmas -/

theorem alookup_upsert {α : Type} (l : List (String × α)) (k k' : String)
    (v : α) :
    alookup (upsert l k v) k' = if k' = k then some v else alookup l k' := by
  induction l with
  | nil =>
    by_cases h : k' = k
    · simp [upsert, alookup, h]
    · have h2 : ¬(k = k') := fun hh => h hh.symm
      simp [upsert, alookup, h, h2]
  | cons p l ih =>
    by_cases hpk : p.1 = k
    · by_cases h : k' = k
      · simp [upsert, alookup, hpk, h]
      · have h2 : ¬(k = k') := fun hh => h hh.symm
        have h3 : ¬(p.1 = k') := by rw [hpk]; exact h2
        simp [upsert, alookup, hpk, h, h2, h3]
    · by_cases hpk' : p.1 = k'
      · have h : ¬(k' = k) := fun hh => hpk (by rw [hpk', hh])
        simp [upsert, alookup, hpk, hpk', h]
      · simp [upsert, alookup, hpk, hpk', ih]

theorem alookup_upsert_self {α : Type} (l : List (String × α)) (k : String)
    (v : α) : alookup (upsert l k v) k = some v := by
  simp [alookup_upsert]

theorem alookup_upsert_ne {α : Type} (l : List (String × α)) {k k' : String}
    (h : k' ≠ k) (v : α) : alookup (upsert l k v) k' = alookup l k' := by
  simp [alookup_upsert, h]

theorem alookup_mem {α : Type} {l : List (String × α)} {k : String} {v : α}
    (h : alookup l k = some v) : (k, v) ∈ l := by
  induction l with
  | nil => simp [alookup] at h
  | cons p l ih =>
    by_cases hp : p.1 = k
    · rw [alookup, if_pos hp] at h
      have hv : p.2 = v := Option.some.inj h
      have hq : (k, v) = p := by rw [← hp, ← hv]
      exact hq ▸ List.mem_cons_self p l
    · rw [alookup, if_neg hp] at h
      exact List.mem_cons_of_mem _ (ih h)

theorem mem_upsert {α : Type} {q : String × α} {l : List (String × α)}
    {k : String} {v : α} (h : q ∈ upsert l k v) : q = (k, v) ∨ q ∈ l := by
  induction l with
  | nil =>
    simp only [upsert, List.mem_singleton] at h
    exact Or.inl h
  | cons p l ih =>
    by_cases hp : p.1 = k
    · rw [upsert, if_pos hp] at h
      rcases List.mem_cons.mp h with h' | h'
      · exact Or.inl h'
      · exact Or.inr (List.mem_cons_of_mem _ h')
    · rw [upsert, if_neg hp] at h
      rcases List.mem_cons.mp h with h' | h'
      · exact Or.inr (h' ▸ List.mem_cons_self p l)
      · rcases ih h' with h2 | h2
        · exact Or.inl h2
        · exact Or.inr (List.mem_cons_of_mem _ h2)

theorem upsert_alookup_self {α : Type} {l : List (String × α)} {k : String}
    {v : α} (h : alookup l k = some v) : upsert l k v = l := by
  induction l with
  | nil => simp [alookup] at h
  | cons p l ih =>
    by_cases hp : p.1 = k
    · rw [alookup, if_pos hp] at h
      have hv : p.2 = v := Option.some.inj h
      have hq : (k, v) = p := by rw [← hp, ← hv]
      rw [upsert, if_pos hp, hq]
    · rw [alookup, if_neg hp] at h
      rw [upsert, if_neg hp, ih h]

/-! ### History-trimming lemmas

`history[-1000:]` is `List.rtake l 1000`, and the conditional trim at
usage_tracking.py lines 158-159 always equals it. -/

theorem trim_eq_rtake {α : Type} (l : List α) (n : Nat) :
    (if l.length > n then l.drop (l.length - n) else l) = l.rtake n := by
  by_cases h : l.length > n
  · simp [List.rtake, h]
  · simp only [if_neg h, List.rtake]
    rw [Nat.sub_eq_zero_of_le (Nat.le_of_not_lt h), List.drop_zero]

theorem take_append_take {α : Type} (a b : List α) (n : Nat) :
    (a ++ b.take n).take n = (a ++ b).take n := by
  rw [List.take_append_eq_append_take, List.take_append_eq_append_take,
    List.take_take]
  congr 1
  rw [Nat.min_def]
  by_cases h : n - a.length ≤ n
  · rw [if_pos h]
  · omega

theorem rtake_append_rtake {α : Type} (xs ys : List α) (n : Nat) :
    (xs.rtake n ++ ys).rtake n = (xs ++ ys).rtake n := by
  rw [List.rtake_eq_reverse_take_reverse, List.rtake_eq_reverse_take_reverse,
    List.rtake_eq_reverse_take_reverse]
  congr 1
  rw [List.reverse_append, List.reverse_reverse, List.reverse_append]
  exact take_append_take _ _ n

theorem rtake_length_le {α : Type} (l : List α) (n : Nat) :
    (l.rtake n).length ≤ n := by
  simp only [List.rtake, List.length_drop]
  omega

theorem rtake_of_length_le {α : Type} {l : List α} {n : Nat}
    (h : l.length ≤ n) : l.rtake n = l := by
  simp only [List.rtake, Nat.sub_eq_zero_of_le h, List.drop_zero]

/-! ### Store projections and the per-call characterization of `track_usage` -/

/-- A user's ledger as seen in a store (the empty ledger when absent). -/
def userOf (s : UsageStore) (u : String) : UserLedger :=
  (alookup s u).getD emptyLedger

/-- A user's daily bucket for a date (zero-valued when absent). -/
def dailyOf (s : UsageStore) (u d : String) : DailyBucket :=
  (alookup (userOf s u).daily d).getD zeroDaily

/-- A user's monthly bucket for a month (zero-valued when absent). -/
def monthlyOf (s : UsageStore) (u m : String) : MonthlyBucket :=
  (alookup (userOf s u).monthly m).getD zeroMonthly

theorem userOf_track (s : UsageStore) (u m : String) (i o : Int)
    (sid : Option String) (ts : Int) (d mon : String) :
    userOf (track_usage u m i o sid ts d mon s) u =
      recordLedger m i o sid ts d mon (userOf s u) := by
  simp [userOf, track_usage, alookup_upsert_self]

theorem userOf_track_ne (s : UsageStore) {u u' : String} (m : String)
    (i o : Int) (sid : Option String) (ts : Int) (d mon : String)
    (h : u' ≠ u) :
    userOf (track_usage u m i o sid ts d mon s) u' = userOf s u' := by
  simp [userOf, track_usage, alookup_upsert_ne _ h]

theorem recordLedger_daily (m : String) (i o : Int) (sid : Option String)
    (ts : Int) (d mon : String) (L : UserLedger) :
    (recordLedger m i o sid ts d mon L).daily =
      upsert L.daily d
        (let b := (alookup L.daily d).getD zeroDaily
         ⟨b.tokens_input + i, b.tokens_output + o,
          b.tokens_total + (i + o), b.cost + calculate_cost m i o⟩) := rfl

theorem recordLedger_monthly (m : String) (i o : Int) (sid : Option String)
    (ts : Int) (d mon : String) (L : UserLedger) :
    (recordLedger m i o sid ts d mon L).monthly =
      upsert L.monthly mon
        (let b := (alookup L.monthly mon).getD zeroMonthly
         ⟨b.tokens_total + (i + o), b.cost + calculate_cost m i o⟩) := rfl

theorem recordLedger_history (m : String) (i o : Int) (sid : Option String)
    (ts : Int) (d mon : String) (L : UserLedger) :
    (recordLedger m i o sid ts d mon L).history =
      (L.history ++
        [(⟨m, ts, i, o, calculate_cost m i o, sid⟩ : HistoryEntry)]).rtake
        1000 := by
  simp only [recordLedger]
  exact trim_eq_rtake _ 1000

theorem dailyOf_track (s : UsageStore) (u m : String) (i o : Int)
    (sid : Option String) (ts : Int) (d mon : String) :
    dailyOf (track_usage u m i o sid ts d mon s) u d =
      ⟨(dailyOf s u d).tokens_input + i, (dailyOf s u d).tokens_output + o,
       (dailyOf s u d).tokens_total + (i + o),
       (dailyOf s u d).cost + calculate_cost m i o⟩ := by
  rw [dailyOf, userOf_track, recordLedger_daily, alookup_upsert_self]
  rfl

theorem monthlyOf_track (s : UsageStore) (u m : String) (i o : Int)
    (sid : Option String) (ts : Int) (d mon : String) :
    monthlyOf (track_usage u m i o sid ts d mon s) u mon =
      ⟨(monthlyOf s u mon).tokens_total + (i + o),
       (monthlyOf s u mon).cost + calculate_cost m i o⟩ := by
  rw [monthlyOf, userOf_track, recordLedger_monthly, alookup_upsert_self]
  rfl

/-! ### Sequences of record calls -/

/-- The arguments of one `track_usage` call (one usage event). -/
structure UsageEvent where
  model : String
  input_tokens : Int
  output_tokens : Int
  timestamp : Int
  deriving DecidableEq, Repr

/-- Record a sequence of events for one user on one day, with no session
id: the sequential composition of the corresponding `track_usage` calls
(each one a complete lock-load-mutate-save critical section). -/
def recordAll (user_email : String) (events : List UsageEvent)
    (today current_month : String) (s : UsageStore) : UsageStore :=
  events.foldl
    (fun st e => track_usage user_email e.model e.input_tokens
      e.output_tokens none e.timestamp today current_month st) s

/-- Total token count `Σ (input + output)` of a sequence of events. -/
def eventsTokens (events : List UsageEvent) : Int :=
  (events.map (fun e => e.input_tokens + e.output_tokens)).sum

/-- Total price `Σ price(e)` of a sequence of events. -/
def eventsCost (events : List UsageEvent) : ℚ :=
  (events.map
    (fun e => calculate_cost e.model e.input_tokens e.output_tokens)).sum

/-- The history record appended by the `track_usage` call for an event
recorded with no session id. -/
def entryOf (e : UsageEvent) : HistoryEntry :=
  ⟨e.model, e.timestamp, e.input_tokens, e.output_tokens,
   calculate_cost e.model e.input_tokens e.output_tokens, none⟩

theorem recordAll_buckets (u : String) (events : List UsageEvent)
    (d mon : String) : ∀ s : UsageStore,
    (dailyOf (recordAll u events d mon s) u d).tokens_total
        = (dailyOf s u d).tokens_total + eventsTokens events
      ∧ (dailyOf (recordAll u events d mon s) u d).cost
        = (dailyOf s u d).cost + eventsCost events
      ∧ (monthlyOf (recordAll u events d mon s) u mon).tokens_total
        = (monthlyOf s u mon).tokens_total + eventsTokens events
      ∧ (monthlyOf (recordAll u events d mon s) u mon).cost
        = (monthlyOf s u mon).cost + eventsCost events := by
  induction events with
  | nil =>
    intro s
    simp [recordAll, eventsTokens, eventsCost]
  | cons e es ih =>
    intro s
    have hstep := ih (track_usage u e.model e.input_tokens e.output_tokens
      none e.timestamp d mon s)
    rcases hstep with ⟨h1, h2, h3, h4⟩
    refine ⟨?_, ?_, ?_, ?_⟩
    · rw [recordAll, List.foldl_cons, ← recordAll, h1, dailyOf_track]
      simp [eventsTokens]
      ring
    · rw [recordAll, List.foldl_cons, ← recordAll, h2, dailyOf_track]
      simp [eventsCost]
      ring
    · rw [recordAll, List.foldl_cons, ← recordAll, h3, monthlyOf_track]
      simp [eventsTokens]
      ring
    · rw [recordAll, List.foldl_cons, ← recordAll, h4, monthlyOf_track]
      simp [eventsCost]
      ring

theorem recordAll_history (u : String) (events : List UsageEvent)
    (d mon : String) : ∀ s : UsageStore,
    (userOf s u).history.length ≤ 1000 →
    (userOf (recordAll u events d mon s) u).history
      = ((userOf s u).history ++ events.map entryOf).rtake 1000 := by
  induction events with
  | nil =>
    intro s hs
    simp [recordAll, rtake_of_length_le hs]
  | cons e es ih =>
    intro s hs
    have hone : (userOf (track_usage u e.model e.input_tokens e.output_tokens
        none e.timestamp d mon s) u).history
        = ((userOf s u).history ++ [entryOf e]).rtake 1000 := by
      rw [userOf_track, recordLedger_history]
      rfl
    have hlen : (userOf (track_usage u e.model e.input_tokens e.output_tokens
        none e.timestamp d mon s) u).history.length ≤ 1000 := by
      rw [hone]
      exact rtake_length_le _ _
    rw [recordAll, List.foldl_cons, ← recordAll, ih _ hlen, hone,
      rtake_append_rtake, List.append_assoc]
    rfl

/-! ### Claim theorems -/

/-- C1: recording events `e1..en` for a user on one day with no session id,
starting from a store in which that user has no daily bucket for that day,
leaves `daily[today].tokens_total = Σ (input + output)` and
`daily[today].cost = Σ price(e)`, and adds the same totals and cost to the
current month's monthly bucket. -/
theorem track_aggregation_conservation (u : String)
    (events : List UsageEvent) (d mon : String) (s : UsageStore)
    (h : alookup (userOf s u).daily d = none) :
    (dailyOf (recordAll u events d mon s) u d).tokens_total
        = eventsTokens events
      ∧ (dailyOf (recordAll u events d mon s) u d).cost = eventsCost events
      ∧ (monthlyOf (recordAll u events d mon s) u mon).tokens_total
        = (monthlyOf s u mon).tokens_total + eventsTokens events
      ∧ (monthlyOf (recordAll u events d mon s) u mon).cost
        = (monthlyOf s u mon).cost + eventsCost events := by
  have h0 : dailyOf s u d = zeroDaily := by rw [dailyOf, h]; rfl
  rcases recordAll_buckets u events d mon s with ⟨h1, h2, h3, h4⟩
  rw [h0] at h1 h2
  refine ⟨?_, ?_, h3, h4⟩
  · rw [h1]; simp [zeroDaily]
  · rw [h2]; simp [zeroDaily]

/-- Two concrete events recorded on 2026-10-12 by `a@x.com`. -/
def demoEvents : List UsageEvent :=
  [⟨"gpt-4", 1000, 500, 0⟩, ⟨"claude-opus-4", 200, 100, 1⟩]

theorem track_aggregation_conservation_witness :
    alookup (userOf ([] : UsageStore) "a@x.com").daily "2026-10-12" = none
      ∧ eventsTokens demoEvents = 1800
      ∧ ((dailyOf (recordAll "a@x.com" demoEvents "2026-10-12" "2026-10" [])
            "a@x.com" "2026-10-12").tokens_total = eventsTokens demoEvents
        ∧ (dailyOf (recordAll "a@x.com" demoEvents "2026-10-12" "2026-10" [])
            "a@x.com" "2026-10-12").cost = eventsCost demoEvents
        ∧ (monthlyOf (recordAll "a@x.com" demoEvents "2026-10-12" "2026-10" [])
            "a@x.com" "2026-10").tokens_total
          = (monthlyOf ([] : UsageStore) "a@x.com" "2026-10").tokens_total
            + eventsTokens demoEvents
        ∧ (monthlyOf (recordAll "a@x.com" demoEvents "2026-10-12" "2026-10" [])
            "a@x.com" "2026-10").cost
          = (monthlyOf ([] : UsageStore) "a@x.com" "2026-10").cost
            + eventsCost demoEvents) :=
  ⟨rfl, by decide,
   track_aggregation_conservation "a@x.com" demoEvents "2026-10-12" "2026-10"
     [] rfl⟩

/-- The store-wide invariant of spec §3: every daily bucket of every user
satisfies `tokens_total = tokens_input + tokens_output`. -/
def DailyTotalsInv (s : UsageStore) : Prop :=
  ∀ p ∈ s, ∀ q ∈ p.2.daily,
    q.2.tokens_total = q.2.tokens_input + q.2.tokens_output

theorem userOf_daily_inv {s : UsageStore} (h : DailyTotalsInv s)
    (u : String) :
    ∀ q ∈ (userOf s u).daily,
      q.2.tokens_total = q.2.tokens_input + q.2.tokens_output := by
  intro q hq
  rw [userOf] at hq
  cases hl : alookup s u with
  | none => rw [hl] at hq; simp [emptyLedger] at hq
  | some L =>
    rw [hl] at hq
    exact h (u, L) (alookup_mem hl) q hq

/-- C2: the equation `daily[d].tokens_total = daily[d].tokens_input +
daily[d].tokens_output` (for every user and date) is preserved by every
record operation: if it holds of the store loaded at the start of the
critical section, it holds of the store saved at the end. -/
theorem track_preserves_daily_totals (s : UsageStore) (u m : String)
    (i o : Int) (sid : Option String) (ts : Int) (d mon : String)
    (h : DailyTotalsInv s) :
    DailyTotalsInv (track_usage u m i o sid ts d mon s) := by
  intro p hp q hq
  rcases mem_upsert hp with hP | hP
  · rw [hP] at hq
    rw [recordLedger_daily] at hq
    rcases mem_upsert hq with hQ | hQ
    · have hb : ((alookup ((alookup s u).getD emptyLedger).daily d).getD
          zeroDaily).tokens_total
          = ((alookup ((alookup s u).getD emptyLedger).daily d).getD
            zeroDaily).tokens_input
            + ((alookup ((alookup s u).getD emptyLedger).daily d).getD
              zeroDaily).tokens_output := by
        cases hd : alookup ((alookup s u).getD emptyLedger).daily d with
        | none => simp [zeroDaily]
        | some b =>
          have : (d, b) ∈ (userOf s u).daily := alookup_mem (by rw [← hd]; rfl)
          have := userOf_daily_inv h u (d, b) this
          simpa using this
      rw [hQ]
      simp only []
      omega
    · exact userOf_daily_inv h u q hQ
  · exact h p hP q hq

theorem track_preserves_daily_totals_witness :
    DailyTotalsInv ([] : UsageStore)
      ∧ DailyTotalsInv
        (track_usage "a@x.com" "gpt-4" 5 7 none 0 "2026-10-12" "2026-10"
          []) :=
  ⟨by intro p hp q hq; simp at hp,
   track_preserves_daily_totals [] "a@x.com" "gpt-4" 5 7 none 0 "2026-10-12"
     "2026-10" (by intro p hp q hq; simp at hp)⟩

/-- C3: after any completed record call the recorded user's history has
length at most 1000; one call appends the new record and keeps only the
most recent 1000 in oldest-first order; and recording 1500 sequential
events into an initially empty ledger leaves exactly the last 1000 events,
oldest-first. -/
theorem history_bound_and_eviction :
    (∀ (s : UsageStore) (u m : String) (i o : Int) (sid : Option String)
      (ts : Int) (d mon : String),
      (userOf (track_usage u m i o sid ts d mon s) u).history.length ≤ 1000)
    ∧ (∀ (s : UsageStore) (u m : String) (i o : Int) (sid : Option String)
      (ts : Int) (d mon : String),
      (userOf (track_usage u m i o sid ts d mon s) u).history
        = ((userOf s u).history ++
            [(⟨m, ts, i, o, calculate_cost m i o, sid⟩ :
              HistoryEntry)]).rtake 1000)
    ∧ (∀ (u : String) (events : List UsageEvent) (d mon : String)
      (s : UsageStore),
      (userOf s u).history = [] → events.length = 1500 →
      (userOf (recordAll u events d mon s) u).history
        = (events.map entryOf).drop 500) := by
  refine ⟨?_, ?_, ?_⟩
  · intro s u m i o sid ts d mon
    rw [userOf_track, recordLedger_history]
    exact rtake_length_le _ _
  · intro s u m i o sid ts d mon
    rw [userOf_track, recordLedger_history]
  · intro u events d mon s h0 hlen
    have hrec := recordAll_history u events d mon s (by rw [h0]; simp)
    rw [h0, List.nil_append] at hrec
    rw [hrec, List.rtake, List.length_map, hlen]

/-- 1500 pairwise-distinct events (event `n` has `n` input tokens). -/
def demo1500 : List UsageEvent :=
  (List.range 1500).map
    (fun (n : Nat) => ⟨"gpt-4", Int.ofNat n, 0, Int.ofNat n⟩)

theorem history_bound_and_eviction_witness :
    (userOf ([] : UsageStore) "a@x.com").history = []
      ∧ demo1500.length = 1500
      ∧ (userOf (recordAll "a@x.com" demo1500 "2026-10-12" "2026-10" [])
          "a@x.com").history = (demo1500.map entryOf).drop 500 :=
  ⟨rfl, by simp only [demo1500, List.length_map, List.length_range],
   history_bound_and_eviction.2.2 "a@x.com" demo1500 "2026-10-12" "2026-10"
     [] rfl (by simp only [demo1500, List.length_map, List.length_range])⟩

theorem find?_eq_head?_filter {α : Type} (p : α → Bool) (l : List α) :
    l.find? p = (l.filter p).head? := by
  induction l with
  | nil => rfl
  | cons a l ih =>
    by_cases h : p a
    · rw [List.find?_cons_of_pos _ h, List.filter_cons_of_pos h,
        List.head?_cons]
    · rw [List.find?_cons_of_neg _ h, List.filter_cons_of_neg h, ih]

/-- C4: when a model identifier contains (case-insensitively) two or more
declared pricing patterns, `calculate_cost` uses the pattern declared first
in `MODEL_PRICING`; when it contains none, the default of $3 per million
input tokens and $15 per million output tokens applies; in both cases the
cost is `(input/1e6)*input_price + (output/1e6)*output_price`
(`applyPricing`). -/
theorem calculate_cost_priority_and_default (model : String)
    (i o : Int) :
    (∀ entry rest,
      MODEL_PRICING.filter (fun p => strContains (pyLower model) p.1)
        = entry :: rest →
      rest ≠ [] →
      calculate_cost model i o = applyPricing entry.2 i o)
    ∧ (MODEL_PRICING.filter (fun p => strContains (pyLower model) p.1) = [] →
      calculate_cost model i o = applyPricing (3, 15) i o) := by
  constructor
  · intro entry rest hmatch _
    have hf : MODEL_PRICING.find? (fun p => strContains (pyLower model) p.1)
        = some entry := by
      rw [find?_eq_head?_filter, hmatch]; rfl
    simp only [calculate_cost, hf]
  · intro hmatch
    have hf : MODEL_PRICING.find? (fun p => strContains (pyLower model) p.1)
        = none := by
      rw [find?_eq_head?_filter, hmatch]; rfl
    simp only [calculate_cost, hf]

theorem calculate_cost_priority_and_default_witness :
    MODEL_PRICING.filter (fun p => strContains (pyLower "gpt-4-turbo") p.1)
        = ("gpt-4", (30, 60)) :: [("gpt-4-turbo", (10, 30))]
      ∧ calculate_cost "gpt-4-turbo" 1000000 0
        = applyPricing (30, 60) 1000000 0
      ∧ MODEL_PRICING.filter (fun p => strContains (pyLower "mystery") p.1)
        = []
      ∧ calculate_cost "mystery" 1000000 2000000
        = applyPricing (3, 15) 1000000 2000000 :=
  ⟨rfl,
   (calculate_cost_priority_and_default "gpt-4-turbo" 1000000 0).1
     ("gpt-4", (30, 60)) [("gpt-4-turbo", (10, 30))] rfl (by simp),
   rfl,
   (calculate_cost_priority_and_default "mystery" 1000000 2000000).2 rfl⟩

theorem recordLedger_sessions_some (m : String) (i o : Int) (sid : String)
    (ts : Int) (d mon : String) (L : UserLedger) (h : ¬(sid = "")) :
    (recordLedger m i o (some sid) ts d mon L).sessions =
      upsert L.sessions sid
        (let b := (alookup L.sessions sid).getD ⟨0, 0, 0, 0, ts, none⟩
         ⟨b.tokens_input + i, b.tokens_output + o,
          b.tokens_total + (i + o), b.cost + calculate_cost m i o,
          b.started_at, some ts⟩) := by
  simp only [recordLedger]
  rw [if_neg h]

/-- C5: a record call carrying a (truthy) session id creates the session
bucket on first use, with `started_at` set to the call's timestamp, and on
every later call with the same id merges the counters and cost, keeps
`started_at` unchanged, and sets `last_updated`; in particular two calls
with id "s1" of 500/100 then 200/50 tokens leave
`sessions["s1"].tokens_total = 850` (see the witness). -/
theorem track_usage_session_buckets (s : UsageStore) (u m : String)
    (i o : Int) (sid : String) (ts : Int) (d mon : String)
    (h : sid ≠ "") :
    (alookup (userOf s u).sessions sid = none →
      alookup (userOf (track_usage u m i o (some sid) ts d mon s) u).sessions
          sid
        = some ⟨i, o, i + o, calculate_cost m i o, ts, some ts⟩)
    ∧ (∀ b, alookup (userOf s u).sessions sid = some b →
      alookup (userOf (track_usage u m i o (some sid) ts d mon s) u).sessions
          sid
        = some ⟨b.tokens_input + i, b.tokens_output + o,
            b.tokens_total + (i + o), b.cost + calculate_cost m i o,
            b.started_at, some ts⟩) := by
  constructor
  · intro hnone
    rw [userOf_track, recordLedger_sessions_some _ _ _ _ _ _ _ _ h,
      alookup_upsert_self, hnone]
    simp
  · intro b hb
    rw [userOf_track, recordLedger_sessions_some _ _ _ _ _ _ _ _ h,
      alookup_upsert_self, hb]
    rfl

/-- The store after recording 500/100 tokens under session "s1". -/
def sessionDemo1 : UsageStore :=
  track_usage "a@x.com" "gpt-4" 500 100 (some "s1") 0 "2026-10-12" "2026-10"
    []

/-- The store after a second 200/50-token record under session "s1". -/
def sessionDemo2 : UsageStore :=
  track_usage "a@x.com" "gpt-4" 200 50 (some "s1") 1 "2026-10-12" "2026-10"
    sessionDemo1

theorem track_usage_session_buckets_witness :
    ("s1" : String) ≠ ""
      ∧ alookup (userOf sessionDemo1 "a@x.com").sessions "s1"
        = some ⟨500, 100, 600, calculate_cost "gpt-4" 500 100, 0, some 0⟩
      ∧ alookup (userOf sessionDemo2 "a@x.com").sessions "s1"
        = some ⟨700, 150, 850,
            calculate_cost "gpt-4" 500 100 + calculate_cost "gpt-4" 200 50,
            0, some 1⟩ := by
  refine ⟨by decide, ?_, ?_⟩
  · exact (track_usage_session_buckets [] "a@x.com" "gpt-4" 500 100 "s1" 0
      "2026-10-12" "2026-10" (by decide)).1 rfl
  · have h1 := (track_usage_session_buckets [] "a@x.com" "gpt-4" 500 100
      "s1" 0 "2026-10-12" "2026-10" (by decide)).1 rfl
    exact (track_usage_session_buckets sessionDemo1 "a@x.com" "gpt-4" 200 50
      "s1" 1 "2026-10-12" "2026-10" (by decide)).2 _ h1

/-- C6: `reset_daily_usage` never performs the deletion the spec describes:
its body references the unbound names `safe_read_json` and
`DAILY_COST_FILE`, so every call raises `NameError`, which the handler
turns into an HTTP 500 error — it never returns the success/failure result
and never touches any store. -/
theorem reset_daily_usage_always_500 (user_id : String)
    (target_date : Option String) (today : String)
    (daily_costs : List (String × List String)) :
    reset_daily_usage user_id target_date today daily_costs
      = Except.error 500 := by
  have h : ¬(("safe_read_json" ∈ usageRouterGlobals)
      ∧ ("DAILY_COST_FILE" ∈ usageRouterGlobals)) := by decide
  simp only [reset_daily_usage, if_neg h]

/-- Whether a JSON value is a Python dict. -/
def isDict : PyJson → Bool
  | .obj _ => true
  | _ => false

/-- C7: a store file that is absent, or whose content is empty or fails to
parse (`json.JSONDecodeError`), is treated as an empty store:
`get_user_usage` returns the empty-valued ledger
`{daily: {}, monthly: {}, sessions: {}, history: []}` and does not raise
(the embedding is a total function because the catch-all handler at line
193 absorbs every exception); likewise when the file parses to a non-dict
JSON value (the `.get` call raises `AttributeError`, also caught). -/
theorem get_user_usage_tolerates_bad_store (u : String) :
    get_user_usage .absent u = emptyLedgerJson
      ∧ get_user_usage .unparseable u = emptyLedgerJson
      ∧ (∀ j : PyJson, isDict j = false →
        get_user_usage (.parsed j) u = emptyLedgerJson) := by
  refine ⟨rfl, rfl, ?_⟩
  intro j hj
  cases j <;> first | rfl | simp [isDict] at hj

theorem get_user_usage_tolerates_bad_store_witness :
    isDict (.arr []) = false
      ∧ get_user_usage (.parsed (.arr [])) "a@x.com" = emptyLedgerJson :=
  ⟨rfl, (get_user_usage_tolerates_bad_store "a@x.com").2.2 (.arr []) rfl⟩

/-- C8: the code has no validation of token counts: a record call with
negative `input_tokens` is not rejected — the negative amount is added to
the daily bucket (and the store is modified), contradicting the spec's
reject-and-log requirement. -/
theorem track_usage_accepts_negative_tokens :
    (dailyOf (track_usage "a@x.com" "gpt-4" (-100) 0 none 0 "2026-10-12"
        "2026-10" []) "a@x.com" "2026-10-12").tokens_input = -100
      ∧ track_usage "a@x.com" "gpt-4" (-100) 0 none 0 "2026-10-12" "2026-10"
          [] ≠ ([] : UsageStore) :=
  ⟨by decide, List.cons_ne_nil _ _⟩

/-- C9: the sweep removes exactly the sessions whose retention key
(`last_updated`, or `started_at` if never updated) is strictly older than
the cutoff, keeping the others in order; it leaves the user's `daily`,
`monthly` and `history` fields and every other user's ledger unchanged;
and it is idempotent: sweeping again with the same cutoff changes
nothing. -/
theorem cleanup_old_sessions_spec (s : UsageStore) (u : String)
    (cutoff : Int) :
    ((userOf (cleanup_old_sessions u cutoff s) u).sessions
        = (userOf s u).sessions.filter
          (fun p => !decide (sessionKey p.2 < cutoff)))
      ∧ (∀ q, q ∈ (userOf (cleanup_old_sessions u cutoff s) u).sessions ↔
          q ∈ (userOf s u).sessions ∧ ¬(sessionKey q.2 < cutoff))
      ∧ (userOf (cleanup_old_sessions u cutoff s) u).daily
        = (userOf s u).daily
      ∧ (userOf (cleanup_old_sessions u cutoff s) u).monthly
        = (userOf s u).monthly
      ∧ (userOf (cleanup_old_sessions u cutoff s) u).history
        = (userOf s u).history
      ∧ (∀ u', u' ≠ u →
          alookup (cleanup_old_sessions u cutoff s) u' = alookup s u')
      ∧ cleanup_old_sessions u cutoff (cleanup_old_sessions u cutoff s)
        = cleanup_old_sessions u cutoff s := by
  cases hl : alookup s u with
  | none =>
    have hc : cleanup_old_sessions u cutoff s = s := by
      simp only [cleanup_old_sessions, hl]
    have hu : (userOf s u) = emptyLedger := by simp [userOf, hl]
    refine ⟨?_, ?_, ?_, ?_, ?_, ?_, ?_⟩ <;>
      simp [hc, hu, emptyLedger]
  | some L =>
    have hc : cleanup_old_sessions u cutoff s
        = upsert s u
          { L with
            sessions := L.sessions.filter
              (fun p => !decide (sessionKey p.2 < cutoff)) } := by
      simp only [cleanup_old_sessions, hl]
    have hu : userOf s u = L := by simp [userOf, hl]
    have hu' : userOf (cleanup_old_sessions u cutoff s) u
        = { L with
            sessions := L.sessions.filter
              (fun p => !decide (sessionKey p.2 < cutoff)) } := by
      rw [hc, userOf, alookup_upsert_self]
      rfl
    refine ⟨?_, ?_, ?_, ?_, ?_, ?_, ?_⟩
    · rw [hu', hu]
    · intro q
      rw [hu', hu]
      simp [List.mem_filter]
    · rw [hu', hu]
    · rw [hu', hu]
    · rw [hu', hu]
    · intro u' hne
      rw [hc, alookup_upsert_ne _ hne]
    · have hl' : alookup (cleanup_old_sessions u cutoff s) u
          = some { L with
              sessions := L.sessions.filter
                (fun p => !decide (sessionKey p.2 < cutoff)) } := by
        rw [hc, alookup_upsert_self]
      rw [cleanup_old_sessions, hl']
      have hff : (L.sessions.filter
            (fun p => !decide (sessionKey p.2 < cutoff))).filter
            (fun p => !decide (sessionKey p.2 < cutoff))
          = L.sessions.filter (fun p => !decide (sessionKey p.2 < cutoff)) := by
        rw [List.filter_filter]
        simp
      simp only [hff]
      exact upsert_alookup_self hl'

/-- A store with one stale session ("old", key 0) and one fresh session
("new", key 100) for `a@x.com`. -/
def sweepDemo : UsageStore :=
  [("a@x.com", ⟨[], [], [("old", ⟨1, 1, 2, 0, 0, some 0⟩),
                         ("new", ⟨1, 1, 2, 0, 0, some 100⟩)], []⟩)]

theorem cleanup_old_sessions_spec_witness :
    (userOf (cleanup_old_sessions "a@x.com" 50 sweepDemo) "a@x.com").sessions
        = [("new", ⟨1, 1, 2, 0, 0, some 100⟩)]
      ∧ alookup (cleanup_old_sessions "a@x.com" 50 sweepDemo) "other"
        = alookup sweepDemo "other"
      ∧ cleanup_old_sessions "a@x.com" 50
          (cleanup_old_sessions "a@x.com" 50 sweepDemo)
        = cleanup_old_sessions "a@x.com" 50 sweepDemo :=
  ⟨(cleanup_old_sessions_spec sweepDemo "a@x.com" 50).1,
   (cleanup_old_sessions_spec sweepDemo "a@x.com" 50).2.2.2.2.2.1 "other"
     (by decide),
   (cleanup_old_sessions_spec sweepDemo "a@x.com" 50).2.2.2.2.2.2⟩

/-! ### Concurrency model

Each concurrent caller of `track_usage` executes, in order: acquire the
exclusive `fcntl.flock` on the store file (usage_tracking.py line 43), load
the store (line 91), mutate it in memory (lines 96-159), save it
(lines 162-166) and release the lock (line 46).  `LOCK_EX` guarantees at
most one holder at a time, and the load happens just after acquiring while
the save happens just before releasing, with no writes possible in between
by anyone else; so a writer's visible transitions are `acquireLoad` (take
the free lock and read the file) and `saveRelease` (write the mutated
store back and free the lock).  Schedulers may interleave different
writers' transitions arbitrarily. -/

/-- The arguments of one concurrent `track_usage` call. -/
structure WriterCall where
  user_email : String
  model : String
  input_tokens : Int
  output_tokens : Int
  session_id : Option String
  timestamp : Int
  today : String
  current_month : String
  deriving Repr

/-- The store-to-store effect of one call (the body of the critical
section). -/
def applyCall (c : WriterCall) (s : UsageStore) : UsageStore :=
  track_usage c.user_email c.model c.input_tokens c.output_tokens
    c.session_id c.timestamp c.today c.current_month s

/-- Where a writer is in its critical section: not yet entered; holding
the lock with the store it loaded; or finished. -/
inductive WriterPC where
  | start
  | loaded (localStore : UsageStore)
  | done
  deriving Repr

/-- One concurrent writer: its call and its progress. -/
structure Writer where
  call : WriterCall
  pc : WriterPC
  deriving Repr

/-- Whether a writer has completed its critical section. -/
def Writer.isDone (w : Writer) : Bool :=
  match w.pc with
  | .done => true
  | _ => false

/-- The shared system: the persisted file, the current lock holder (if
any), and the writers. -/
structure SysState where
  file : UsageStore
  owner : Option Nat
  writers : List Writer

/-- A scheduling decision: which writer takes its next transition. -/
inductive Action where
  | acquireLoad (i : Nat)
  | saveRelease (i : Nat)

/-- One transition, `none` when the chosen action is not enabled:
`acquireLoad i` needs the lock free and writer `i` not yet started
(`flock` blocks otherwise); `saveRelease i` needs writer `i` to hold the
lock mid-section. -/
def stepA (s : SysState) (a : Action) : Option SysState :=
  match a with
  | .acquireLoad i =>
    match s.owner, s.writers[i]? with
    | none, some w =>
      match w.pc with
      | .start =>
        some ⟨s.file, some i,
          s.writers.set i ⟨w.call, .loaded s.file⟩⟩
      | _ => none
    | _, _ => none
  | .saveRelease i =>
    match s.owner, s.writers[i]? with
    | some j, some w =>
      if j = i then
        match w.pc with
        | .loaded localStore =>
          some ⟨applyCall w.call localStore, none,
            s.writers.set i ⟨w.call, .done⟩⟩
        | _ => none
      else none
    | _, _ => none

/-- Run a schedule of actions from a state. -/
def run (s : SysState) : List Action → Option SysState
  | [] => some s
  | a :: acts => (stepA s a).bind (fun s' => run s' acts)

/-- The initial state: the store on disk is `s0`, the lock is free, and
one writer per call is about to start. -/
def initState (s0 : UsageStore) (calls : List WriterCall) : SysState :=
  ⟨s0, none, calls.map (fun c => ⟨c, .start⟩)⟩

/-- All writers have completed. -/
def allDone (s : SysState) : Bool :=
  s.writers.all Writer.isDone

/-- The calls of the writers that have completed so far, in writer-list
order. -/
def doneCalls (s : SysState) : List WriterCall :=
  (s.writers.filter Writer.isDone).map Writer.call

theorem getElem?_set_of_some {α : Type} :
    ∀ (l : List α) (i : Nat) (w w' : α),
      l[i]? = some w → (l.set i w')[i]? = some w' := by
  intro l
  induction l with
  | nil => intro i w w' h; simp at h
  | cons a t ih =>
    intro i w w' h
    cases i with
    | zero => simp [List.set]
    | succ n =>
      simp only [List.getElem?_cons_succ] at h
      simp only [List.set, List.getElem?_cons_succ]
      exact ih n w w' h

theorem getElem?_set_ne {α : Type} :
    ∀ (l : List α) (i j : Nat) (w' : α),
      j ≠ i → (l.set i w')[j]? = l[j]? := by
  intro l
  induction l with
  | nil => intro i j w' _; simp [List.set]
  | cons a t ih =>
    intro i j w' hne
    cases i with
    | zero =>
      cases j with
      | zero => exact absurd rfl hne
      | succ m => simp [List.set]
    | succ n =>
      cases j with
      | zero => simp [List.set]
      | succ m =>
        simp only [List.set, List.getElem?_cons_succ]
        exact ih n m w' (fun hh => hne (by rw [hh]))

theorem map_set_eq_of_eq {α β : Type} (f : α → β) :
    ∀ (l : List α) (i : Nat) (w w' : α),
      l[i]? = some w → f w' = f w → (l.set i w').map f = l.map f := by
  intro l
  induction l with
  | nil => intro i w w' h _; simp at h
  | cons a t ih =>
    intro i w w' h hf
    cases i with
    | zero =>
      simp only [List.getElem?_cons_zero, Option.some.injEq] at h
      simp only [List.set, List.map, List.cons.injEq]
      exact ⟨by rw [hf, h], by trivial⟩
    | succ n =>
      simp only [List.getElem?_cons_succ] at h
      simp only [List.set, List.map, List.cons.injEq]
      exact ⟨by trivial, ih n w w' h hf⟩

theorem filter_set_of_neg {α : Type} (p : α → Bool) :
    ∀ (l : List α) (i : Nat) (w w' : α),
      l[i]? = some w → p w = false → p w' = false →
      (l.set i w').filter p = l.filter p := by
  intro l
  induction l with
  | nil => intro i w w' h _ _; simp at h
  | cons a t ih =>
    intro i w w' h hw hw'
    cases i with
    | zero =>
      simp only [List.getElem?_cons_zero, Option.some.injEq] at h
      subst h
      simp only [List.set]
      rw [List.filter_cons_of_neg (by simp [hw']),
        List.filter_cons_of_neg (by simp [hw])]
    | succ n =>
      simp only [List.getElem?_cons_succ] at h
      simp only [List.set, List.filter_cons]
      rw [ih n w w' h hw hw']

theorem filter_set_perm {α : Type} (p : α → Bool) :
    ∀ (l : List α) (i : Nat) (w w' : α),
      l[i]? = some w → p w = false → p w' = true →
      ((l.set i w').filter p).Perm (w' :: l.filter p) := by
  intro l
  induction l with
  | nil => intro i w w' h _ _; simp at h
  | cons a t ih =>
    intro i w w' h hw hw'
    cases i with
    | zero =>
      simp only [List.getElem?_cons_zero, Option.some.injEq] at h
      subst h
      simp only [List.set]
      rw [List.filter_cons_of_pos (by simp [hw']),
        List.filter_cons_of_neg (by simp [hw])]
    | succ n =>
      simp only [List.getElem?_cons_succ] at h
      simp only [List.set, List.filter_cons]
      by_cases ha : p a
      · rw [if_pos (by simp [ha]), if_pos (by simp [ha])]
        exact ((ih n w w' h hw hw').cons a).trans (List.Perm.swap w' a _)
      · rw [if_neg (by simp [ha]), if_neg (by simp [ha])]
        exact ih n w w' h hw hw'

/-- The reachability invariant tying each state to the serial executions:
(1) the writers' calls never change, (2) the file equals the serial fold of
some permutation of the completed calls over the initial store, and (3) any
mid-section writer is the unique lock holder and its loaded copy equals the
file on disk. -/
def ConcInv (s0 : UsageStore) (calls : List WriterCall) (s : SysState) :
    Prop :=
  s.writers.map Writer.call = calls
    ∧ (∃ order : List WriterCall, order.Perm (doneCalls s)
        ∧ s.file = order.foldl (fun st c => applyCall c st) s0)
    ∧ ∀ i w ls, s.writers[i]? = some w → w.pc = .loaded ls →
        s.owner = some i ∧ ls = s.file

theorem stepA_preserves {s0 : UsageStore} {calls : List WriterCall}
    {s s' : SysState} {a : Action} (hinv : ConcInv s0 calls s)
    (h : stepA s a = some s') : ConcInv s0 calls s' := by
  obtain ⟨hcalls, ⟨order, hperm, hfile⟩, hloaded⟩ := hinv
  cases a with
  | acquireLoad i =>
    cases ho : s.owner with
    | some j => simp [stepA, ho] at h
    | none =>
      cases hw : s.writers[i]? with
      | none => simp [stepA, ho, hw] at h
      | some w =>
        cases hpc : w.pc with
        | loaded ls => simp [stepA, ho, hw, hpc] at h
        | done => simp [stepA, ho, hw, hpc] at h
        | start =>
          simp only [stepA, ho, hw, hpc] at h
          have hs' : s' = ⟨s.file, some i,
              s.writers.set i ⟨w.call, .loaded s.file⟩⟩ :=
            (Option.some.inj h).symm
          subst hs'
          have hwnd : Writer.isDone w = false := by
            simp [Writer.isDone, hpc]
          refine ⟨?_, ⟨order, ?_, hfile⟩, ?_⟩
          · rw [← hcalls]
            exact map_set_eq_of_eq Writer.call s.writers i w _ hw rfl
          · have hd : doneCalls ⟨s.file, some i,
                s.writers.set i ⟨w.call, .loaded s.file⟩⟩ = doneCalls s := by
              rw [doneCalls, doneCalls]
              rw [filter_set_of_neg Writer.isDone s.writers i w _ hw hwnd
                (by simp [Writer.isDone])]
            rw [hd]
            exact hperm
          · intro j w2 ls2 hj hpc2
            by_cases hji : j = i
            · subst hji
              have : (s.writers.set j ⟨w.call, .loaded s.file⟩)[j]?
                  = some ⟨w.call, .loaded s.file⟩ :=
                getElem?_set_of_some s.writers j w _ hw
              rw [this] at hj
              have hw2 : w2 = ⟨w.call, .loaded s.file⟩ :=
                (Option.some.inj hj).symm
              subst hw2
              simp only [WriterPC.loaded.injEq] at hpc2
              exact ⟨rfl, hpc2.symm⟩
            · rw [getElem?_set_ne s.writers i j _ hji] at hj
              have := (hloaded j w2 ls2 hj hpc2).1
              rw [ho] at this
              exact absurd this (by simp)
  | saveRelease i =>
    cases ho : s.owner with
    | none => simp [stepA, ho] at h
    | some j =>
      cases hw : s.writers[i]? with
      | none => simp [stepA, ho, hw] at h
      | some w =>
        by_cases hji : j = i
        · subst hji
          cases hpc : w.pc with
          | start => simp [stepA, ho, hw, hpc] at h
          | done => simp [stepA, ho, hw, hpc] at h
          | loaded ls =>
            simp only [stepA, ho, hw, hpc, if_pos rfl] at h
            have hs' : s' = ⟨applyCall w.call ls, none,
                s.writers.set j ⟨w.call, .done⟩⟩ :=
              (Option.some.inj h).symm
            subst hs'
            have hls : ls = s.file := (hloaded j w ls hw hpc).2
            have hwnd : Writer.isDone w = false := by
              simp [Writer.isDone, hpc]
            refine ⟨?_, ⟨order ++ [w.call], ?_, ?_⟩, ?_⟩
            · rw [← hcalls]
              exact map_set_eq_of_eq Writer.call s.writers j w _ hw rfl
            · have hd : (doneCalls ⟨applyCall w.call ls, none,
                  s.writers.set j ⟨w.call, .done⟩⟩).Perm
                  (w.call :: doneCalls s) := by
                rw [doneCalls, doneCalls]
                exact (filter_set_perm Writer.isDone s.writers j w _ hw hwnd
                  (by simp [Writer.isDone])).map Writer.call
              refine ((hperm.append_right [w.call]).trans ?_).trans hd.symm
              exact List.perm_append_singleton _ _
            · show applyCall w.call ls
                = (order ++ [w.call]).foldl (fun st c => applyCall c st) s0
              rw [List.foldl_append, ← hfile, hls]
              rfl
            · intro j2 w2 ls2 hj2 hpc2
              by_cases hj2i : j2 = j
              · subst hj2i
                have : (s.writers.set j2 ⟨w.call, .done⟩)[j2]?
                    = some ⟨w.call, .done⟩ :=
                  getElem?_set_of_some s.writers j2 w _ hw
                rw [this] at hj2
                have hw2 : w2 = ⟨w.call, .done⟩ := (Option.some.inj hj2).symm
                subst hw2
                simp at hpc2
              · rw [getElem?_set_ne s.writers j j2 _ hj2i] at hj2
                have := (hloaded j2 w2 ls2 hj2 hpc2).1
                rw [ho] at this
                have : j = j2 := (Option.some.inj this)
                exact absurd this.symm hj2i
        · simp [stepA, ho, hw, hji] at h

theorem run_preserves {s0 : UsageStore} {calls : List WriterCall} :
    ∀ {acts : List Action} {s final : SysState},
      ConcInv s0 calls s → run s acts = some final →
      ConcInv s0 calls final := by
  intro acts
  induction acts with
  | nil =>
    intro s final hinv h
    rw [run] at h
    exact (Option.some.inj h) ▸ hinv
  | cons a acts ih =>
    intro s final hinv h
    rw [run] at h
    cases hs : stepA s a with
    | none => rw [hs] at h; simp at h
    | some s1 =>
      rw [hs] at h
      simp only [Option.some_bind] at h
      exact ih (stepA_preserves hinv hs) h

theorem map_call_mk_start (calls : List WriterCall) :
    (calls.map (fun c => (⟨c, .start⟩ : Writer))).map Writer.call = calls := by
  induction calls with
  | nil => rfl
  | cons c t ih => simp only [List.map, List.cons.injEq]; exact ⟨by trivial, ih⟩

theorem initState_inv (s0 : UsageStore) (calls : List WriterCall) :
    ConcInv s0 calls (initState s0 calls) := by
  refine ⟨map_call_mk_start calls, ⟨[], ?_, rfl⟩, ?_⟩
  · have hd : doneCalls (initState s0 calls) = [] := by
      rw [doneCalls, initState]
      have : (calls.map (fun c => (⟨c, .start⟩ : Writer))).filter
          Writer.isDone = [] := by
        rw [List.filter_eq_nil_iff]
        intro w hw
        rcases List.mem_map.mp hw with ⟨c, _, hc⟩
        rw [← hc]
        simp [Writer.isDone]
      rw [this]
      rfl
    rw [hd]
  · intro i w ls hi hpc
    have hmem : w ∈ (initState s0 calls).writers := List.getElem?_mem hi
    rw [initState] at hmem
    rcases List.mem_map.mp hmem with ⟨c, _, hc⟩
    rw [← hc] at hpc
    simp at hpc

/-- C10: any complete interleaved execution of N concurrent writers, each
recording one event under the file lock, leaves the persisted store equal
to the serial execution of the N `track_usage` calls in some order — every
contribution applied exactly once, none lost, none duplicated. -/
theorem concurrent_writers_serializable (s0 : UsageStore)
    (calls : List WriterCall) (acts : List Action) (final : SysState)
    (hrun : run (initState s0 calls) acts = some final)
    (hdone : allDone final = true) :
    ∃ order : List WriterCall, order.Perm calls
      ∧ final.file = order.foldl (fun st c => applyCall c st) s0 := by
  obtain ⟨hcalls, ⟨order, hperm, hfile⟩, _⟩ :=
    run_preserves (initState_inv s0 calls) hrun
  refine ⟨order, ?_, hfile⟩
  have hfd : final.writers.filter Writer.isDone = final.writers := by
    rw [List.filter_eq_self]
    intro w hw
    exact List.all_eq_true.mp hdone w hw
  have : doneCalls final = calls := by
    rw [doneCalls, hfd, hcalls]
  exact this ▸ hperm

/-- Two writers for the same user, 10/5 and 7/3 tokens. -/
def demoCalls : List WriterCall :=
  [⟨"a@x.com", "gpt-4", 10, 5, none, 0, "2026-10-12", "2026-10"⟩,
   ⟨"a@x.com", "gpt-4", 7, 3, none, 1, "2026-10-12", "2026-10"⟩]

/-- A complete schedule: writer 0 runs its critical section, then
writer 1. -/
def demoActs : List Action :=
  [.acquireLoad 0, .saveRelease 0, .acquireLoad 1, .saveRelease 1]

theorem concurrent_writers_serializable_witness :
    ∃ final : SysState,
      run (initState [] demoCalls) demoActs = some final
        ∧ allDone final = true
        ∧ ∃ order : List WriterCall, order.Perm demoCalls
          ∧ final.file = order.foldl (fun st c => applyCall c st) [] := by
  have hs : (run (initState [] demoCalls) demoActs).isSome = true := rfl
  refine ⟨(run (initState [] demoCalls) demoActs).get hs,
    (Option.some_get hs).symm, rfl, ?_⟩
  exact concurrent_writers_serializable [] demoCalls demoActs _
    (Option.some_get hs).symm rfl

end UsageTracking
